import Mathlib

/-!
Shallow embedding of the MergeHull divide-and-conquer convex hull
implementation (src/src/convex_hull.cpp).  The point, contour and
circulator primitives live in headers outside the repository snapshot,
so they are modelled from the specification (§3, §9): a point is a pair
of integer coordinates ordered lexicographically, a contour is a fixed
point sequence, and a circulator is an index into that sequence with
modular increment/decrement.  Every C++ `while` loop is embedded as a
fuel-indexed recursion returning `Option`: `none` means the loop did
not finish within the given fuel.
-/

namespace MergeHull

/-- Modelled from the spec: `point_type` is an immutable pair of integer
coordinates (x, y) (the C++ definition lives in a header not present in
the snapshot). -/
structure point_type where
  x : Int
  y : Int
deriving DecidableEq, Repr

/-- Modelled from the spec: vector subtraction, point − point → displacement. -/
def psub (a b : point_type) : point_type :=
  ⟨a.x - b.x, a.y - b.y⟩

/-- Modelled from the spec: the 2D cross product `v1 ^ v2` of two
displacements, sign-significant scalar. -/
def cross (v1 v2 : point_type) : Int :=
  v1.x * v2.y - v1.y * v2.x

/-- Modelled from the spec: the lexicographic strict total order on points,
x first then y (the C++ `operator<` lives in a header not present). -/
def pt_lt (p q : point_type) : Bool :=
  p.x < q.x || (p.x == q.x && p.y < q.y)

/-- Modelled from the spec: `p > q` is `q < p`. -/
def pt_gt (p q : point_type) : Bool :=
  pt_lt q p

/-- Modelled from the spec: the non-strict companion of `pt_lt`, used to
model the ascending sort. -/
def pt_le (p q : point_type) : Bool :=
  pt_lt p q || (p.x == q.x && p.y == q.y)

/-- Enumeration `turn_type` from src/src/convex_hull.cpp lines 16-19. -/
inductive turn_type where
  | COLLINEAR
  | LEFT
  | RIGHT
deriving DecidableEq, Repr

export turn_type (COLLINEAR LEFT RIGHT)

/-- Sign helper `sgn` from src/src/convex_hull.cpp lines 23-30. -/
def sgn (x : Int) : Int :=
  if x = 0 then 0 else if x < 0 then -1 else 1

/-- Orientation predicate `turn` from src/src/convex_hull.cpp lines 33-48: the orientation of c
relative to the directed line a→b. -/
def turn (a b c : point_type) : turn_type :=
  let v1 := psub b a
  let v2 := psub c a
  let sign := sgn (cross v1 v2)
  if sign = -1 then RIGHT
  else if sign = 1 then LEFT
  else COLLINEAR

/-- Structure `contour_type` (constructor at src/src/convex_hull.cpp lines 54-56):
an immutable point sequence. -/
structure contour_type where
  pts_ : List point_type
deriving DecidableEq, Repr

/-- Method `vertices_num`: the number of vertices of a contour. -/
def contour_type.vertices_num (c : contour_type) : Nat :=
  c.pts_.length

/-- Modelled from the spec: `contour_circulator`, a cyclic cursor bound to
one contour, an index with modular wrap-around (§3, §9). -/
structure contour_circulator where
  contour : contour_type
  idx : Nat
deriving DecidableEq, Repr

namespace contour_circulator

/-- Modelled from the spec: a freshly constructed circulator points at the
first vertex. -/
def mk0 (c : contour_type) : contour_circulator :=
  ⟨c, 0⟩

/-- Modelled from the spec: `++circulator`, index arithmetic mod length. -/
def inc (c : contour_circulator) : contour_circulator :=
  ⟨c.contour, (c.idx + 1) % c.contour.pts_.length⟩

/-- Modelled from the spec: `--circulator`, index arithmetic mod length. -/
def dec (c : contour_circulator) : contour_circulator :=
  ⟨c.contour, (c.idx + c.contour.pts_.length - 1) % c.contour.pts_.length⟩

/-- Modelled from the spec: dereference `*circulator`, the point at the
current position (index reduced mod length). -/
def deref (c : contour_circulator) : point_type :=
  c.contour.pts_.getD (c.idx % c.contour.pts_.length) ⟨0, 0⟩

/-- Modelled from the spec: `circulator.prev()`, the point one step back
(the cursor itself does not move). -/
def prev (c : contour_circulator) : point_type :=
  c.dec.deref

/-- Modelled from the spec: `circulator.next()`, the point one step ahead
(the cursor itself does not move). -/
def next (c : contour_circulator) : point_type :=
  c.inc.deref

/-- Modelled from the spec: two circulators over the same contour compare
equal exactly when they sit at the same position. -/
def eqPos (a b : contour_circulator) : Bool :=
  a.idx == b.idx

end contour_circulator

open contour_circulator

/-- Overload `is_tangent` (contour overload), src/src/convex_hull.cpp lines 114-125:
the segment p1→p2 is tangent to a contour iff no vertex of the contour
makes a RIGHT turn with it. -/
def is_tangent_contour (p1 p2 : point_type) (contour : contour_type) : Bool :=
  contour.pts_.all fun p => turn p1 p2 p != RIGHT

/-- Overload `is_tangent` (three-point overload), src/src/convex_hull.cpp
lines 127-132. -/
def is_tangent (p1 p2 p3 : point_type) : Bool :=
  turn p1 p2 p3 != RIGHT

/-- Inner loop 1 of `find_tangent` (src/src/convex_hull.cpp lines 138-140):
the C++ loop decrementing A while the predecessor of A violates tangency, with fuel. -/
def retreat_A : Nat → contour_circulator → contour_circulator → Option contour_circulator
  | fuel, cA, cB =>
    if is_tangent cA.deref cB.deref cA.prev then some cA
    else
      match fuel with
      | 0 => none
      | fuel + 1 => retreat_A fuel cA.dec cB

/-- Inner loop 2 of `find_tangent` (src/src/convex_hull.cpp lines 141-143):
the C++ loop incrementing B while the successor of B violates tangency, with fuel. -/
def advance_B : Nat → contour_circulator → contour_circulator → Option contour_circulator
  | fuel, cA, cB =>
    if is_tangent cA.deref cB.deref cB.next then some cB
    else
      match fuel with
      | 0 => none
      | fuel + 1 => advance_B fuel cA cB.inc

/-- Function `find_tangent`, src/src/convex_hull.cpp lines 134-145: the outer loop
re-checks both tangency conditions, running the two inner loops until
both hold; returns the two final circulators (in parameter order). -/
def find_tangent : Nat → contour_circulator → contour_circulator →
    Option (contour_circulator × contour_circulator)
  | fuel, cA, cB =>
    if is_tangent cA.deref cB.deref cA.prev && is_tangent cA.deref cB.deref cB.next then
      some (cA, cB)
    else
      match fuel with
      | 0 => none
      | fuel + 1 => do
        let cA' ← retreat_A fuel cA cB
        let cB' ← advance_B fuel cA' cB
        find_tangent fuel cA' cB'

/-- Loop of `set_leftmost` (src/src/convex_hull.cpp lines 157-161): advance
until the current vertex is strictly below both circular neighbours. -/
def set_leftmost_loop : Nat → contour_circulator → Option contour_circulator
  | fuel, c =>
    if pt_lt c.deref c.prev && pt_lt c.deref c.next then some c
    else
      match fuel with
      | 0 => none
      | fuel + 1 => set_leftmost_loop fuel c.inc

/-- Function `set_leftmost`, src/src/convex_hull.cpp lines 147-162: if predecessor,
current and successor coincide positionally the circulator is returned
unchanged, otherwise the search loop runs. -/
def set_leftmost (fuel : Nat) (c : contour_circulator) : Option contour_circulator :=
  if eqPos c.dec c && eqPos c c.inc then some c
  else set_leftmost_loop fuel c

/-- Loop of `set_rightmost` (src/src/convex_hull.cpp lines 174-178). -/
def set_rightmost_loop : Nat → contour_circulator → Option contour_circulator
  | fuel, c =>
    if pt_gt c.deref c.prev && pt_gt c.deref c.next then some c
    else
      match fuel with
      | 0 => none
      | fuel + 1 => set_rightmost_loop fuel c.inc

/-- Function `set_rightmost`, src/src/convex_hull.cpp lines 164-179. -/
def set_rightmost (fuel : Nat) (c : contour_circulator) : Option contour_circulator :=
  if eqPos c.dec c && eqPos c c.inc then some c
  else set_rightmost_loop fuel c

/-- Consecutive-triple scan of `is_on_one_line` (src/src/convex_hull.cpp
lines 188-192): every three consecutive points are collinear. -/
def triples_collinear : List point_type → Bool
  | a :: b :: c :: rest => turn a b c == COLLINEAR && triples_collinear (b :: c :: rest)
  | _ => true

/-- Predicate `is_on_one_line` (single contour), src/src/convex_hull.cpp
lines 181-195: trivially true for at most two vertices, otherwise the
consecutive-triple scan. -/
def is_on_one_line (contour : contour_type) : Bool :=
  if contour.vertices_num ≤ 2 then true
  else triples_collinear contour.pts_

/-- Predicate `is_on_one_line` (pair overload), src/src/convex_hull.cpp
lines 197-211: concatenates the two point sequences and applies the
single-contour test. -/
def is_on_one_line_pair (A B : contour_type) : Bool :=
  is_on_one_line ⟨A.pts_ ++ B.pts_⟩

/-- Forward walk of the builder loops: while beg differs from end, emit
the point at beg and increment beg; finally emit the point at end
(src/src/convex_hull.cpp lines 226-230, 232-236, 252-258, 264-268),
with fuel; the accumulator models the point list of the builder. -/
def walk_fwd : Nat → contour_circulator → contour_circulator → List point_type →
    Option (List point_type)
  | fuel, beg, e, acc =>
    if eqPos beg e then some (acc ++ [e.deref])
    else
      match fuel with
      | 0 => none
      | fuel + 1 => walk_fwd fuel beg.inc e (acc ++ [beg.deref])

/-- Backward walk of the builder loops: while beg differs from end, emit
the point at beg and decrement beg; finally emit the point at end
(src/src/convex_hull.cpp lines 246-249, 258), with fuel. -/
def walk_bwd : Nat → contour_circulator → contour_circulator → List point_type →
    Option (List point_type)
  | fuel, beg, e, acc =>
    if eqPos beg e then some (acc ++ [e.deref])
    else
      match fuel with
      | 0 => none
      | fuel + 1 => walk_bwd fuel beg.dec e (acc ++ [beg.deref])

/-- Function `build_oneline_contour`, src/src/convex_hull.cpp lines 213-239: set
both circulators leftmost, walk each full cycle forward from there. -/
def build_oneline_contour (fuel : Nat) (A B : contour_type) : Option contour_type := do
  let cA ← set_leftmost fuel (mk0 A)
  let cB ← set_leftmost fuel (mk0 B)
  let acc1 ← walk_fwd fuel cA cA.dec []
  let acc2 ← walk_fwd fuel cB cB.dec acc1
  some ⟨acc2⟩

/-- Function `add_oneline_contour_to_builder`, src/src/convex_hull.cpp
lines 241-259: if the position after beg is end, walk backward from beg
to end, otherwise walk forward (the increment of beg performed by the
test is undone again in both branches before the walk starts). -/
def add_oneline_contour_to_builder (fuel : Nat) (beg e : contour_circulator)
    (acc : List point_type) : Option (List point_type) :=
  if eqPos beg.inc e then walk_bwd fuel beg e acc
  else walk_fwd fuel beg e acc

/-- Function `add_convex_contour_to_builder`, src/src/convex_hull.cpp
lines 261-269: plain forward walk. -/
def add_convex_contour_to_builder (fuel : Nat) (beg e : contour_circulator)
    (acc : List point_type) : Option (List point_type) :=
  walk_fwd fuel beg e acc

/-- Function `add_contour_to_builder`, src/src/convex_hull.cpp lines 271-280. -/
def add_contour_to_builder (fuel : Nat) (contour : contour_type)
    (beg e : contour_circulator) (acc : List point_type) : Option (List point_type) :=
  if is_on_one_line contour then add_oneline_contour_to_builder fuel beg e acc
  else add_convex_contour_to_builder fuel beg e acc

/-- The general (non-collinear) branch of `merge`, src/src/convex_hull.cpp
lines 288-309: lower tangent from rightmost-of-A / leftmost-of-B, upper
tangent with the roles swapped (restarting from the current circulator
positions, since the C++ mutates them in place), then stitch the arc of
A from upper to lower and the arc of B from lower to upper. -/
def merge_general (fuel : Nat) (A B : contour_type) : Option contour_type := do
  let cA1 ← set_rightmost fuel (mk0 A)
  let cB1 ← set_leftmost fuel (mk0 B)
  let (a_down, b_down) ← find_tangent fuel cA1 cB1
  let cA2 ← set_rightmost fuel a_down
  let cB2 ← set_leftmost fuel b_down
  let (b_up, a_up) ← find_tangent fuel cB2 cA2
  let acc1 ← add_contour_to_builder fuel A a_up a_down []
  let acc2 ← add_contour_to_builder fuel B b_down b_up acc1
  some ⟨acc2⟩

/-- Function `merge`, src/src/convex_hull.cpp lines 282-310: collinear unions take
the degenerate path, everything else the tangent-based merge. -/
def merge (fuel : Nat) (A B : contour_type) : Option contour_type :=
  if is_on_one_line_pair A B then build_oneline_contour fuel A B
  else merge_general fuel A B

/-- Function `merge_hull_impl`, src/src/convex_hull.cpp lines 95-112: ranges of at
most two (sorted) points become trivial contours; larger ranges split at
index `size/2`, are hulled recursively, and merged.  The C++ recursion
carries no fuel; here the same fuel parameter bounds the recursion depth
so that the whole development stays structurally recursive. -/
def merge_hull_impl : Nat → List point_type → Option contour_type
  | fuel, pts =>
    if pts.length ≤ 2 then some ⟨pts⟩
    else
      match fuel with
      | 0 => none
      | fuel + 1 => do
        let left_contour ← merge_hull_impl fuel (pts.take (pts.length / 2))
        let right_contour ← merge_hull_impl fuel (pts.drop (pts.length / 2))
        merge fuel left_contour right_contour

/-- Insertion step of the sort model. -/
def insert_sorted (p : point_type) : List point_type → List point_type
  | [] => [p]
  | q :: rest => if pt_le p q then p :: q :: rest else q :: insert_sorted p rest

/-- Modelled from the spec: `boost::sort` sorts ascending by the
lexicographic total order (§4.2, duplicates permitted); embedded as an
insertion sort, which produces the same ascending sequence. -/
def sort_points : List point_type → List point_type
  | [] => []
  | p :: rest => insert_sorted p (sort_points rest)

/-- Function `merge_hull`, src/src/convex_hull.cpp lines 85-93: fewer than two
points raise the single `invalid-input` error before any sorting or
recursion; otherwise the sorted list is passed to the recursive driver.
The inner `Option` is `none` when a loop runs out of fuel. -/
def merge_hull (fuel : Nat) (pts : List point_type) :
    Except String (Option contour_type) :=
  if pts.length < 2 then .error "not enough points to build convex hull"
  else .ok (merge_hull_impl fuel (sort_points pts))

/-!
Formalizations of the properties the specification asserts about the
program (§8), stated with the orientation predicate of the source, plus
one driver variant written from the words of the specification for a
refinement comparison.
-/

/-- Containment check of the spec (§8): every input point lies weakly to
the left of every cyclic edge of the returned contour, decided by the
orientation predicate. -/
def contains_all (c : contour_type) (pts : List point_type) : Bool :=
  (c.pts_.zip (c.pts_.rotate 1)).all fun e => pts.all fun p => turn e.1 e.2 p != RIGHT

/-- Convexity check of the spec (§8): no three consecutive vertices of the
contour, read cyclically, form a RIGHT turn. -/
def no_right_turn (c : contour_type) : Bool :=
  (c.pts_.zip ((c.pts_.rotate 1).zip (c.pts_.rotate 2))).all fun t =>
    turn t.1 t.2.1 t.2.2 != RIGHT

/-- Entire-collinearity of a point list as the spec words it: every triple
of points drawn from the list is collinear. -/
def all_collinear (l : List point_type) : Bool :=
  l.all fun p => l.all fun q => l.all fun r => turn p q r == COLLINEAR

/-- Modelled from the spec: the divide driver exactly as §4.3 of the spec
words it for claim C8, with the split left-biased for odd sizes (the left
half receives the extra element), for comparison with `merge_hull_impl`. -/
def merge_hull_impl_leftbiased : Nat → List point_type → Option contour_type
  | fuel, pts =>
    if pts.length ≤ 2 then some ⟨pts⟩
    else
      match fuel with
      | 0 => none
      | fuel + 1 => do
        let left_contour ← merge_hull_impl_leftbiased fuel (pts.take ((pts.length + 1) / 2))
        let right_contour ← merge_hull_impl_leftbiased fuel (pts.drop ((pts.length + 1) / 2))
        merge fuel left_contour right_contour

end MergeHull

deriving instance DecidableEq for Except

namespace MergeHull

open contour_circulator

/-! Basic facts about the orientation predicate. -/

lemma sgn_of_neg {k : Int} (h : k < 0) : sgn k = -1 := by
  unfold sgn
  rw [if_neg (by omega), if_pos h]

lemma sgn_of_pos {k : Int} (h : 0 < k) : sgn k = 1 := by
  unfold sgn
  rw [if_neg (by omega), if_neg (by omega)]

lemma sgn_of_zero : sgn 0 = 0 := rfl

lemma turn_eq_ite (a b c : point_type) :
    turn a b c =
      if sgn (cross (psub b a) (psub c a)) = -1 then RIGHT
      else if sgn (cross (psub b a) (psub c a)) = 1 then LEFT
      else COLLINEAR := rfl

lemma turn_of_neg (a b c : point_type) (h : cross (psub b a) (psub c a) < 0) :
    turn a b c = RIGHT := by
  rw [turn_eq_ite, sgn_of_neg h]
  simp

lemma turn_of_pos (a b c : point_type) (h : 0 < cross (psub b a) (psub c a)) :
    turn a b c = LEFT := by
  rw [turn_eq_ite, sgn_of_pos h]
  simp

lemma turn_of_zero (a b c : point_type) (h : cross (psub b a) (psub c a) = 0) :
    turn a b c = COLLINEAR := by
  rw [turn_eq_ite, h, sgn_of_zero]
  simp

lemma cross_swap (a b c : point_type) :
    cross (psub c a) (psub b a) = -cross (psub b a) (psub c a) := by
  simp only [cross, psub]
  ring

/-- C10: swapping the last two arguments of the orientation predicate
flips LEFT and RIGHT and preserves COLLINEAR. -/
theorem C10_turn_antisymmetry (a b c : point_type) :
    (turn a b c = LEFT ↔ turn a c b = RIGHT) ∧
    (turn a b c = COLLINEAR ↔ turn a c b = COLLINEAR) := by
  rcases lt_trichotomy (cross (psub b a) (psub c a)) 0 with h | h | h
  · rw [turn_of_neg a b c h, turn_of_pos a c b (by rw [cross_swap]; omega)]
    exact ⟨by simp, by simp⟩
  · rw [turn_of_zero a b c h, turn_of_zero a c b (by rw [cross_swap]; omega)]
    exact ⟨by simp, Iff.rfl⟩
  · rw [turn_of_pos a b c h, turn_of_neg a c b (by rw [cross_swap]; omega)]
    exact ⟨by simp, by simp⟩

/-- C5: the single invalid-input error is reported exactly when fewer
than two points are supplied, before any sorting or recursive work; no
other error value is ever produced. -/
theorem C5_error_iff_fewer_than_two (fuel : Nat) (pts : List point_type) (e : String) :
    merge_hull fuel pts = .error e ↔
      (pts.length < 2 ∧ e = "not enough points to build convex hull") := by
  unfold merge_hull
  by_cases h : pts.length < 2
  · simp [h, eq_comm]
  · simp [h]

/-- C5 witness: the empty input reports the invalid-input error. -/
theorem C5_error_witness :
    merge_hull 0 [] = .error "not enough points to build convex hull" :=
  (C5_error_iff_fewer_than_two 0 [] "not enough points to build convex hull").mpr
    ⟨by decide, rfl⟩

/-! Facts about the leftmost locator. -/

lemma set_leftmost_loop_local_min :
    ∀ fuel c c', set_leftmost_loop fuel c = some c' →
      pt_lt c'.deref c'.prev = true ∧ pt_lt c'.deref c'.next = true := by
  intro fuel
  induction fuel with
  | zero =>
    intro c c' h
    rw [set_leftmost_loop] at h
    by_cases hc : (pt_lt c.deref c.prev && pt_lt c.deref c.next) = true
    · rw [if_pos hc] at h
      cases h
      exact And.imp_left id (by simpa using hc)
    · rw [if_neg hc] at h
      cases h
  | succ fuel ih =>
    intro c c' h
    rw [set_leftmost_loop] at h
    by_cases hc : (pt_lt c.deref c.prev && pt_lt c.deref c.next) = true
    · rw [if_pos hc] at h
      cases h
      exact And.imp_left id (by simpa using hc)
    · rw [if_neg hc] at h
      exact ih c.inc c' h

/-- C7 (amended): when predecessor, current and successor positions all
coincide (which happens exactly for a one-vertex contour), set_leftmost
returns the circulator unchanged; in every other case in which the
search terminates, the final vertex is strictly less than both of its
immediate circular neighbours.  (For a two-vertex contour the circulator
is in general moved, contrary to the original claim.) -/
theorem C7_set_leftmost_amended (fuel : Nat) (c c' : contour_circulator)
    (h : set_leftmost fuel c = some c') :
    ((eqPos c.dec c && eqPos c c.inc) = true → c' = c) ∧
    ((eqPos c.dec c && eqPos c c.inc) = false →
      pt_lt c'.deref c'.prev = true ∧ pt_lt c'.deref c'.next = true) := by
  unfold set_leftmost at h
  by_cases hg : (eqPos c.dec c && eqPos c c.inc) = true
  · rw [if_pos hg] at h
    cases h
    exact ⟨fun _ => rfl, fun hff => by rw [hg] at hff; cases hff⟩
  · rw [if_neg hg] at h
    refine ⟨fun htt => absurd htt hg, fun _ => ?_⟩
    exact set_leftmost_loop_local_min fuel c c' h

/-- C7 counterexample: a two-vertex contour with distinct vertices, with
the circulator starting at the larger vertex: the contour has size at
most 2, yet set_leftmost moves the circulator. -/
theorem C7_set_leftmost_cex :
    (⟨[⟨0, 0⟩, ⟨1, 0⟩]⟩ : contour_type).vertices_num ≤ 2 ∧
    set_leftmost 10 ⟨⟨[⟨0, 0⟩, ⟨1, 0⟩]⟩, 1⟩ ≠ some ⟨⟨[⟨0, 0⟩, ⟨1, 0⟩]⟩, 1⟩ := by
  constructor
  · decide
  · decide

/-- C7 witness: on the two-vertex contour the terminating search ends at
a vertex strictly below both neighbours. -/
theorem C7_set_leftmost_witness :
    pt_lt (deref ⟨⟨[⟨0, 0⟩, ⟨1, 0⟩]⟩, 0⟩) (prev ⟨⟨[⟨0, 0⟩, ⟨1, 0⟩]⟩, 0⟩) = true ∧
    pt_lt (deref ⟨⟨[⟨0, 0⟩, ⟨1, 0⟩]⟩, 0⟩) (next ⟨⟨[⟨0, 0⟩, ⟨1, 0⟩]⟩, 0⟩) = true :=
  (C7_set_leftmost_amended 10 ⟨⟨[⟨0, 0⟩, ⟨1, 0⟩]⟩, 1⟩ ⟨⟨[⟨0, 0⟩, ⟨1, 0⟩]⟩, 0⟩
    (by decide)).2 (by decide)

/-! Non-termination of the locator loop on a two-vertex contour with two
equal points, and the resulting divergence of the whole algorithm on an
input of three equal points. -/

lemma deref_pair (p : point_type) (idx : Nat) :
    deref ⟨⟨[p, p]⟩, idx⟩ = p := by
  unfold contour_circulator.deref
  rcases Nat.mod_two_eq_zero_or_one idx with h | h <;> simp [h]

lemma pt_lt_irrefl (p : point_type) : pt_lt p p = false := by
  simp [pt_lt]

lemma set_leftmost_loop_pair_stuck (p : point_type) :
    ∀ fuel idx, set_leftmost_loop fuel ⟨⟨[p, p]⟩, idx⟩ = none := by
  intro fuel
  induction fuel with
  | zero =>
    intro idx
    rw [set_leftmost_loop]
    simp [prev, next, contour_circulator.dec, contour_circulator.inc, deref_pair,
      pt_lt_irrefl]
  | succ fuel ih =>
    intro idx
    rw [set_leftmost_loop]
    simp only [prev, next, contour_circulator.dec, contour_circulator.inc, deref_pair,
      pt_lt_irrefl, Bool.false_and, Bool.false_eq_true, if_false]
    exact ih _

lemma set_leftmost_pair_stuck (p : point_type) (fuel : Nat) :
    set_leftmost fuel (mk0 ⟨[p, p]⟩) = none := by
  unfold set_leftmost
  have hg : (eqPos (dec (mk0 (⟨[p, p]⟩ : contour_type))) (mk0 ⟨[p, p]⟩) &&
      eqPos (mk0 (⟨[p, p]⟩ : contour_type)) (inc (mk0 ⟨[p, p]⟩))) = false := by
    simp [mk0, eqPos, contour_circulator.dec, contour_circulator.inc]
  rw [hg]
  simp only [Bool.false_eq_true, if_false]
  exact set_leftmost_loop_pair_stuck p fuel 0

lemma set_leftmost_single (p : point_type) (fuel : Nat) :
    set_leftmost fuel (mk0 ⟨[p]⟩) = some (mk0 ⟨[p]⟩) := by
  unfold set_leftmost
  have hg : (eqPos (dec (mk0 (⟨[p]⟩ : contour_type))) (mk0 ⟨[p]⟩) &&
      eqPos (mk0 (⟨[p]⟩ : contour_type)) (inc (mk0 ⟨[p]⟩))) = true := by
    simp [mk0, eqPos, contour_circulator.dec, contour_circulator.inc]
  rw [hg]
  simp

lemma turn_same (p r : point_type) : turn p p r = COLLINEAR := by
  apply turn_of_zero
  simp [psub, cross]

lemma build_oneline_pair_diverges (p : point_type) (fuel : Nat) :
    build_oneline_contour fuel ⟨[p]⟩ ⟨[p, p]⟩ = none := by
  unfold build_oneline_contour
  rw [set_leftmost_single p fuel, set_leftmost_pair_stuck p fuel]
  rfl

lemma merge_pair_diverges (p : point_type) (fuel : Nat) :
    merge fuel ⟨[p]⟩ ⟨[p, p]⟩ = none := by
  unfold merge
  have hc : is_on_one_line_pair ⟨[p]⟩ ⟨[p, p]⟩ = true := by
    simp [is_on_one_line_pair, is_on_one_line, contour_type.vertices_num,
      triples_collinear, turn_same]
  rw [hc]
  simp only [if_true]
  exact build_oneline_pair_diverges p fuel

lemma merge_hull_impl_three_equal (p : point_type) :
    ∀ fuel, merge_hull_impl fuel [p, p, p] = none := by
  intro fuel
  cases fuel with
  | zero =>
    rw [merge_hull_impl.eq_def]
    simp
  | succ fuel =>
    rw [merge_hull_impl.eq_def]
    have h1 : merge_hull_impl fuel [p] = some ⟨[p]⟩ := by
      rw [merge_hull_impl.eq_def]
      simp
    have h2 : merge_hull_impl fuel [p, p] = some ⟨[p, p]⟩ := by
      rw [merge_hull_impl.eq_def]
      simp
    simp [h1, h2, merge_pair_diverges p fuel]

/-- C4: the claim fails on the code: on the input of three equal points
(duplicates are explicitly permitted), the leftmost-locator loop never
meets its exit condition on the two-equal-point sub-contour, so
merge_hull diverges no matter how much fuel the embedding grants (the
C++ loops forever). -/
theorem C4_divergence_on_duplicate_points (fuel : Nat) :
    merge_hull fuel [⟨0, 0⟩, ⟨0, 0⟩, ⟨0, 0⟩] = .ok none := by
  unfold merge_hull
  rw [if_neg (by simp)]
  have hs : sort_points [(⟨0, 0⟩ : point_type), ⟨0, 0⟩, ⟨0, 0⟩] =
      [⟨0, 0⟩, ⟨0, 0⟩, ⟨0, 0⟩] := rfl
  rw [hs, merge_hull_impl_three_equal ⟨0, 0⟩ fuel]

/-! The Step-1 collinearity test of merge. -/

lemma triples_collinear_of_all :
    ∀ l : List point_type,
      (∀ p ∈ l, ∀ q ∈ l, ∀ r ∈ l, turn p q r = COLLINEAR) →
      triples_collinear l = true := by
  intro l
  induction l with
  | nil => intro _; rfl
  | cons a t ih =>
    intro h
    cases t with
    | nil => rfl
    | cons b t2 =>
      cases t2 with
      | nil => rfl
      | cons c rest =>
        rw [triples_collinear, Bool.and_eq_true]
        refine ⟨?_, ?_⟩
        · have := h a (by simp) b (by simp) c (by simp)
          simp [this]
        · exact ih fun p hp q hq r hr =>
            h p (List.mem_cons_of_mem a hp) q (List.mem_cons_of_mem a hq)
              r (List.mem_cons_of_mem a hr)

/-- C6 (amended): the Step-1 test returns true whenever the union of the
points of A and B is entirely collinear, and tangent-based merging is
bypassed exactly when the test returns true; however, contrary to the
original claim, the test can also return true for a non-collinear union
when duplicated points make every consecutive triple of the
concatenation degenerate. -/
theorem C6_collinearity_test_amended (fuel : Nat) (A B : contour_type) :
    ((∀ p ∈ A.pts_ ++ B.pts_, ∀ q ∈ A.pts_ ++ B.pts_, ∀ r ∈ A.pts_ ++ B.pts_,
        turn p q r = COLLINEAR) → is_on_one_line_pair A B = true) ∧
    (is_on_one_line_pair A B = true →
      merge fuel A B = build_oneline_contour fuel A B) ∧
    (is_on_one_line_pair A B = false →
      merge fuel A B = merge_general fuel A B) := by
  refine ⟨?_, ?_, ?_⟩
  · intro h
    unfold is_on_one_line_pair is_on_one_line
    by_cases hlen : (⟨A.pts_ ++ B.pts_⟩ : contour_type).vertices_num ≤ 2
    · rw [if_pos hlen]
    · rw [if_neg hlen]
      exact triples_collinear_of_all (A.pts_ ++ B.pts_) h
  · intro h
    unfold merge
    rw [h]
    simp
  · intro h
    unfold merge
    rw [h]
    simp

/-- C6 counterexample: two contours reachable from the input
(0,0),(1,0),(1,0),(2,1) for which the Step-1 test returns true although
the union of their points is not collinear: the duplicated point (1,0)
makes every consecutive triple of the concatenation degenerate. -/
theorem C6_collinearity_test_cex :
    is_on_one_line_pair ⟨[⟨0, 0⟩, ⟨1, 0⟩]⟩ ⟨[⟨1, 0⟩, ⟨2, 1⟩]⟩ = true ∧
    ¬ (∀ p ∈ (⟨[⟨0, 0⟩, ⟨1, 0⟩]⟩ : contour_type).pts_ ++
          (⟨[⟨1, 0⟩, ⟨2, 1⟩]⟩ : contour_type).pts_,
        ∀ q ∈ (⟨[⟨0, 0⟩, ⟨1, 0⟩]⟩ : contour_type).pts_ ++
          (⟨[⟨1, 0⟩, ⟨2, 1⟩]⟩ : contour_type).pts_,
        ∀ r ∈ (⟨[⟨0, 0⟩, ⟨1, 0⟩]⟩ : contour_type).pts_ ++
          (⟨[⟨1, 0⟩, ⟨2, 1⟩]⟩ : contour_type).pts_,
        turn p q r = COLLINEAR) := by
  constructor
  · decide
  · decide

/-- C6 witness: a genuinely collinear pair of contours for which the test
returns true, obtained by applying the amended theorem. -/
theorem C6_collinearity_test_witness :
    is_on_one_line_pair ⟨[⟨0, 0⟩]⟩ ⟨[⟨1, 0⟩, ⟨2, 0⟩]⟩ = true :=
  (C6_collinearity_test_amended 5 ⟨[⟨0, 0⟩]⟩ ⟨[⟨1, 0⟩, ⟨2, 0⟩]⟩).1 (by decide)

/-! The split of the divide driver. -/

/-- C8 (amended): for a range of at least three sorted points the driver
splits at index size/2 and merges the recursive hulls of the two halves;
the left half receives size/2 elements and the right half the remaining
size − size/2, so for odd sizes it is the right half, not the left, that
receives the extra element. -/
theorem C8_split_amended (fuel : Nat) (pts : List point_type) (h : 3 ≤ pts.length) :
    merge_hull_impl (fuel + 1) pts = (do
        let left_contour ← merge_hull_impl fuel (pts.take (pts.length / 2))
        let right_contour ← merge_hull_impl fuel (pts.drop (pts.length / 2))
        merge fuel left_contour right_contour)
    ∧ (pts.take (pts.length / 2)).length = pts.length / 2
    ∧ (pts.drop (pts.length / 2)).length = pts.length - pts.length / 2
    ∧ (pts.length % 2 = 1 →
        (pts.drop (pts.length / 2)).length = (pts.take (pts.length / 2)).length + 1) := by
  refine ⟨?_, ?_, ?_, ?_⟩
  · rw [merge_hull_impl.eq_def]
    dsimp only
    rw [if_neg (by omega)]
  · simp only [List.length_take]
    omega
  · simp only [List.length_drop]
  · intro hodd
    simp only [List.length_take, List.length_drop]
    omega

/-- C8 counterexample: on a concrete three-point range the code driver
and the left-biased driver the claim describes produce different
contours, so the code does not give the extra element of an odd split to
the left half. -/
theorem C8_split_cex :
    merge_hull_impl 100 [⟨0, 0⟩, ⟨1, 1⟩, ⟨2, 0⟩] ≠
      merge_hull_impl_leftbiased 100 [⟨0, 0⟩, ⟨1, 1⟩, ⟨2, 0⟩] := by
  decide

/-- C8 witness: on a concrete three-point range the right half receives
the extra element. -/
theorem C8_split_witness :
    (([(⟨0, 0⟩ : point_type), ⟨1, 1⟩, ⟨2, 0⟩].drop
        ([(⟨0, 0⟩ : point_type), ⟨1, 1⟩, ⟨2, 0⟩].length / 2)).length =
      (([(⟨0, 0⟩ : point_type), ⟨1, 1⟩, ⟨2, 0⟩].take
        ([(⟨0, 0⟩ : point_type), ⟨1, 1⟩, ⟨2, 0⟩].length / 2)).length + 1)) :=
  (C8_split_amended 10 [⟨0, 0⟩, ⟨1, 1⟩, ⟨2, 0⟩] (by decide)).2.2.2 (by decide)

/-! Containment and convexity fail on an input with a duplicated point. -/

/-- C1: the claim fails on the code: on the input
(0,0),(0,1),(0,1),(1,0), whose duplicated point fools the Step-1
collinearity test, merge_hull returns the contour
(0,0),(0,1),(0,1),(1,0), and the input point (1,0) lies strictly to the
RIGHT of the hull edge (0,0)→(0,1), i.e. outside the returned polygon. -/
theorem C1_containment_fails_on_duplicates :
    merge_hull 100 [⟨0, 0⟩, ⟨0, 1⟩, ⟨0, 1⟩, ⟨1, 0⟩] =
      .ok (some ⟨[⟨0, 0⟩, ⟨0, 1⟩, ⟨0, 1⟩, ⟨1, 0⟩]⟩) ∧
    contains_all ⟨[⟨0, 0⟩, ⟨0, 1⟩, ⟨0, 1⟩, ⟨1, 0⟩]⟩
      [⟨0, 0⟩, ⟨0, 1⟩, ⟨0, 1⟩, ⟨1, 0⟩] = false ∧
    turn ⟨0, 0⟩ ⟨0, 1⟩ ⟨1, 0⟩ = RIGHT := by
  refine ⟨by decide, by decide, by decide⟩

/-- C2: the claim fails on the code: on the input
(0,0),(0,1),(0,1),(1,0) merge_hull returns the contour
(0,0),(0,1),(0,1),(1,0), which read cyclically has a RIGHT turn at the
consecutive vertices (0,1),(1,0),(0,0), and whose vertices are not all
collinear. -/
theorem C2_convexity_fails_on_duplicates :
    merge_hull 100 [⟨0, 0⟩, ⟨0, 1⟩, ⟨0, 1⟩, ⟨1, 0⟩] =
      .ok (some ⟨[⟨0, 0⟩, ⟨0, 1⟩, ⟨0, 1⟩, ⟨1, 0⟩]⟩) ∧
    no_right_turn ⟨[⟨0, 0⟩, ⟨0, 1⟩, ⟨0, 1⟩, ⟨1, 0⟩]⟩ = false ∧
    all_collinear [⟨0, 0⟩, ⟨0, 1⟩, ⟨0, 1⟩, ⟨1, 0⟩] = false ∧
    turn ⟨0, 1⟩ ⟨1, 0⟩ ⟨0, 0⟩ = RIGHT := by
  refine ⟨by decide, by decide, by decide, by decide⟩

/-! Every vertex of the output is an input point.  The development
follows the call structure of the source: the walks emit only points of
the contour their circulators are bound to, the locators and the tangent
search never change which contour a circulator is bound to, merge emits
only points of its two arguments, and the driver only passes sorted
sub-ranges of the input downward. -/

lemma mem_insert_sorted (x p : point_type) :
    ∀ l, x ∈ insert_sorted p l ↔ x = p ∨ x ∈ l := by
  intro l
  induction l with
  | nil => simp [insert_sorted]
  | cons q rest ih =>
    rw [insert_sorted]
    by_cases h : pt_le p q = true
    · rw [if_pos h]
      simp
    · rw [if_neg h]
      simp [ih]
      tauto

lemma mem_sort_points (x : point_type) :
    ∀ l, x ∈ sort_points l ↔ x ∈ l := by
  intro l
  induction l with
  | nil => simp [sort_points]
  | cons p rest ih =>
    rw [sort_points, mem_insert_sorted]
    simp [ih]

lemma insert_sorted_length (p : point_type) :
    ∀ l, (insert_sorted p l).length = l.length + 1 := by
  intro l
  induction l with
  | nil => rfl
  | cons q rest ih =>
    rw [insert_sorted]
    by_cases h : pt_le p q = true
    · rw [if_pos h]
      simp
    · rw [if_neg h]
      simp [ih]

lemma sort_points_length : ∀ l : List point_type, (sort_points l).length = l.length := by
  intro l
  induction l with
  | nil => rfl
  | cons p rest ih =>
    rw [sort_points, insert_sorted_length, ih]
    rfl

lemma deref_mem (c : contour_circulator) (h : c.contour.pts_ ≠ []) :
    c.deref ∈ c.contour.pts_ := by
  have hlen : 0 < c.contour.pts_.length := List.length_pos.mpr h
  have hm : c.idx % c.contour.pts_.length < c.contour.pts_.length := Nat.mod_lt _ hlen
  unfold contour_circulator.deref
  rw [List.getD_eq_getElem _ _ hm]
  exact List.getElem_mem hm

lemma inc_contour (c : contour_circulator) : c.inc.contour = c.contour := rfl

lemma dec_contour (c : contour_circulator) : c.dec.contour = c.contour := rfl

lemma set_leftmost_loop_contour :
    ∀ fuel c c', set_leftmost_loop fuel c = some c' → c'.contour = c.contour := by
  intro fuel
  induction fuel with
  | zero =>
    intro c c' h
    rw [set_leftmost_loop] at h
    by_cases hc : (pt_lt c.deref c.prev && pt_lt c.deref c.next) = true
    · rw [if_pos hc] at h
      cases h
      rfl
    · rw [if_neg hc] at h
      cases h
  | succ fuel ih =>
    intro c c' h
    rw [set_leftmost_loop] at h
    by_cases hc : (pt_lt c.deref c.prev && pt_lt c.deref c.next) = true
    · rw [if_pos hc] at h
      cases h
      rfl
    · rw [if_neg hc] at h
      exact (ih c.inc c' h).trans (inc_contour c)

lemma set_leftmost_contour (fuel : Nat) (c c' : contour_circulator)
    (h : set_leftmost fuel c = some c') : c'.contour = c.contour := by
  unfold set_leftmost at h
  by_cases hg : (eqPos c.dec c && eqPos c c.inc) = true
  · rw [if_pos hg] at h
    cases h
    rfl
  · rw [if_neg hg] at h
    exact set_leftmost_loop_contour fuel c c' h

lemma set_rightmost_loop_contour :
    ∀ fuel c c', set_rightmost_loop fuel c = some c' → c'.contour = c.contour := by
  intro fuel
  induction fuel with
  | zero =>
    intro c c' h
    rw [set_rightmost_loop] at h
    by_cases hc : (pt_gt c.deref c.prev && pt_gt c.deref c.next) = true
    · rw [if_pos hc] at h
      cases h
      rfl
    · rw [if_neg hc] at h
      cases h
  | succ fuel ih =>
    intro c c' h
    rw [set_rightmost_loop] at h
    by_cases hc : (pt_gt c.deref c.prev && pt_gt c.deref c.next) = true
    · rw [if_pos hc] at h
      cases h
      rfl
    · rw [if_neg hc] at h
      exact (ih c.inc c' h).trans (inc_contour c)

lemma set_rightmost_contour (fuel : Nat) (c c' : contour_circulator)
    (h : set_rightmost fuel c = some c') : c'.contour = c.contour := by
  unfold set_rightmost at h
  by_cases hg : (eqPos c.dec c && eqPos c c.inc) = true
  · rw [if_pos hg] at h
    cases h
    rfl
  · rw [if_neg hg] at h
    exact set_rightmost_loop_contour fuel c c' h

lemma retreat_A_contour :
    ∀ fuel cA cB c', retreat_A fuel cA cB = some c' → c'.contour = cA.contour := by
  intro fuel
  induction fuel with
  | zero =>
    intro cA cB c' h
    rw [retreat_A] at h
    by_cases hc : is_tangent cA.deref cB.deref cA.prev = true
    · rw [if_pos hc] at h
      cases h
      rfl
    · rw [if_neg hc] at h
      cases h
  | succ fuel ih =>
    intro cA cB c' h
    rw [retreat_A] at h
    by_cases hc : is_tangent cA.deref cB.deref cA.prev = true
    · rw [if_pos hc] at h
      cases h
      rfl
    · rw [if_neg hc] at h
      exact (ih cA.dec cB c' h).trans (dec_contour cA)

lemma advance_B_contour :
    ∀ fuel cA cB c', advance_B fuel cA cB = some c' → c'.contour = cB.contour := by
  intro fuel
  induction fuel with
  | zero =>
    intro cA cB c' h
    rw [advance_B] at h
    by_cases hc : is_tangent cA.deref cB.deref cB.next = true
    · rw [if_pos hc] at h
      cases h
      rfl
    · rw [if_neg hc] at h
      cases h
  | succ fuel ih =>
    intro cA cB c' h
    rw [advance_B] at h
    by_cases hc : is_tangent cA.deref cB.deref cB.next = true
    · rw [if_pos hc] at h
      cases h
      rfl
    · rw [if_neg hc] at h
      exact (ih cA cB.inc c' h).trans (inc_contour cB)

lemma find_tangent_contour :
    ∀ fuel cA cB a b, find_tangent fuel cA cB = some (a, b) →
      a.contour = cA.contour ∧ b.contour = cB.contour := by
  intro fuel
  induction fuel with
  | zero =>
    intro cA cB a b h
    rw [find_tangent] at h
    by_cases hc : (is_tangent cA.deref cB.deref cA.prev &&
        is_tangent cA.deref cB.deref cB.next) = true
    · rw [if_pos hc] at h
      cases h
      exact ⟨rfl, rfl⟩
    · rw [if_neg hc] at h
      cases h
  | succ fuel ih =>
    intro cA cB a b h
    rw [find_tangent] at h
    by_cases hc : (is_tangent cA.deref cB.deref cA.prev &&
        is_tangent cA.deref cB.deref cB.next) = true
    · rw [if_pos hc] at h
      cases h
      exact ⟨rfl, rfl⟩
    · rw [if_neg hc] at h
      simp only [Option.bind_eq_bind, Option.bind_eq_some] at h
      obtain ⟨cA2, hA2, cB2, hB2, hrec⟩ := h
      obtain ⟨ha, hb⟩ := ih cA2 cB2 a b hrec
      exact ⟨ha.trans (retreat_A_contour fuel cA cB cA2 hA2),
        hb.trans (advance_B_contour fuel cA2 cB cB2 hB2)⟩

lemma walk_fwd_shape :
    ∀ fuel beg e acc out, walk_fwd fuel beg e acc = some out →
      ∃ pre, out = acc ++ pre ∧ pre ≠ [] ∧
        (beg.contour = e.contour → e.contour.pts_ ≠ [] →
          ∀ x ∈ pre, x ∈ e.contour.pts_) := by
  intro fuel
  induction fuel with
  | zero =>
    intro beg e acc out h
    rw [walk_fwd] at h
    by_cases hc : eqPos beg e = true
    · rw [if_pos hc] at h
      cases h
      exact ⟨[e.deref], rfl, by simp, fun _ hne x hx => by
        rw [List.mem_singleton] at hx
        exact hx ▸ deref_mem e hne⟩
    · rw [if_neg hc] at h
      cases h
  | succ fuel ih =>
    intro beg e acc out h
    rw [walk_fwd] at h
    by_cases hc : eqPos beg e = true
    · rw [if_pos hc] at h
      cases h
      exact ⟨[e.deref], rfl, by simp, fun _ hne x hx => by
        rw [List.mem_singleton] at hx
        exact hx ▸ deref_mem e hne⟩
    · rw [if_neg hc] at h
      obtain ⟨pre, hout, hpre, hmem⟩ := ih beg.inc e (acc ++ [beg.deref]) out h
      refine ⟨beg.deref :: pre, by simp [hout], by simp, fun hbe hne x hx => ?_⟩
      rw [List.mem_cons] at hx
      rcases hx with hx | hx
      · subst hx
        have := deref_mem beg (by rw [hbe]; exact hne)
        rwa [hbe] at this
      · exact hmem ((inc_contour beg).trans hbe) hne x hx

lemma walk_bwd_shape :
    ∀ fuel beg e acc out, walk_bwd fuel beg e acc = some out →
      ∃ pre, out = acc ++ pre ∧ pre ≠ [] ∧
        (beg.contour = e.contour → e.contour.pts_ ≠ [] →
          ∀ x ∈ pre, x ∈ e.contour.pts_) := by
  intro fuel
  induction fuel with
  | zero =>
    intro beg e acc out h
    rw [walk_bwd] at h
    by_cases hc : eqPos beg e = true
    · rw [if_pos hc] at h
      cases h
      exact ⟨[e.deref], rfl, by simp, fun _ hne x hx => by
        rw [List.mem_singleton] at hx
        exact hx ▸ deref_mem e hne⟩
    · rw [if_neg hc] at h
      cases h
  | succ fuel ih =>
    intro beg e acc out h
    rw [walk_bwd] at h
    by_cases hc : eqPos beg e = true
    · rw [if_pos hc] at h
      cases h
      exact ⟨[e.deref], rfl, by simp, fun _ hne x hx => by
        rw [List.mem_singleton] at hx
        exact hx ▸ deref_mem e hne⟩
    · rw [if_neg hc] at h
      obtain ⟨pre, hout, hpre, hmem⟩ := ih beg.dec e (acc ++ [beg.deref]) out h
      refine ⟨beg.deref :: pre, by simp [hout], by simp, fun hbe hne x hx => ?_⟩
      rw [List.mem_cons] at hx
      rcases hx with hx | hx
      · subst hx
        have := deref_mem beg (by rw [hbe]; exact hne)
        rwa [hbe] at this
      · exact hmem ((dec_contour beg).trans hbe) hne x hx

lemma add_contour_shape (fuel : Nat) (contour : contour_type)
    (beg e : contour_circulator) (acc out : List point_type)
    (h : add_contour_to_builder fuel contour beg e acc = some out) :
    ∃ pre, out = acc ++ pre ∧ pre ≠ [] ∧
      (beg.contour = e.contour → e.contour.pts_ ≠ [] →
        ∀ x ∈ pre, x ∈ e.contour.pts_) := by
  unfold add_contour_to_builder add_oneline_contour_to_builder
    add_convex_contour_to_builder at h
  by_cases h1 : is_on_one_line contour = true
  · rw [if_pos h1] at h
    by_cases h2 : eqPos beg.inc e = true
    · rw [if_pos h2] at h
      exact walk_bwd_shape fuel beg e acc out h
    · rw [if_neg h2] at h
      exact walk_fwd_shape fuel beg e acc out h
  · rw [if_neg h1] at h
    exact walk_fwd_shape fuel beg e acc out h

lemma build_oneline_shape (fuel : Nat) (A B C : contour_type)
    (h : build_oneline_contour fuel A B = some C)
    (hA : A.pts_ ≠ []) (hB : B.pts_ ≠ []) :
    C.pts_ ≠ [] ∧ ∀ x ∈ C.pts_, x ∈ A.pts_ ∨ x ∈ B.pts_ := by
  unfold build_oneline_contour at h
  simp only [Option.bind_eq_bind, Option.bind_eq_some] at h
  obtain ⟨cA, hcA, cB, hcB, acc1, hw1, acc2, hw2, hC⟩ := h
  have hcA2 : cA.contour = A := set_leftmost_contour fuel (mk0 A) cA hcA
  have hcB2 : cB.contour = B := set_leftmost_contour fuel (mk0 B) cB hcB
  obtain ⟨pre1, hout1, hpre1, hmem1⟩ := walk_fwd_shape fuel cA cA.dec [] acc1 hw1
  obtain ⟨pre2, hout2, hpre2, hmem2⟩ := walk_fwd_shape fuel cB cB.dec acc1 acc2 hw2
  cases hC
  constructor
  · rw [hout2, hout1]
    simp [hpre2]
  · intro x hx
    rw [hout2, hout1] at hx
    simp only [List.nil_append, List.mem_append] at hx
    rcases hx with hx | hx
    · left
      have := hmem1 (dec_contour cA).symm (by rw [dec_contour, hcA2]; exact hA) x hx
      rwa [dec_contour, hcA2] at this
    · right
      have := hmem2 (dec_contour cB).symm (by rw [dec_contour, hcB2]; exact hB) x hx
      rwa [dec_contour, hcB2] at this

lemma merge_general_shape (fuel : Nat) (A B C : contour_type)
    (h : merge_general fuel A B = some C)
    (hA : A.pts_ ≠ []) (hB : B.pts_ ≠ []) :
    C.pts_ ≠ [] ∧ ∀ x ∈ C.pts_, x ∈ A.pts_ ∨ x ∈ B.pts_ := by
  unfold merge_general at h
  simp only [Option.bind_eq_bind, Option.bind_eq_some] at h
  obtain ⟨cA1, hcA1, cB1, hcB1, pr1, hft1, cA2, hcA2, cB2, hcB2, pr2, hft2,
    acc1, hadd1, acc2, hadd2, hC⟩ := h
  obtain ⟨a_down, b_down⟩ := pr1
  obtain ⟨b_up, a_up⟩ := pr2
  have h1 : cA1.contour = A := set_rightmost_contour fuel (mk0 A) cA1 hcA1
  have h2 : cB1.contour = B := set_leftmost_contour fuel (mk0 B) cB1 hcB1
  obtain ⟨h3, h4⟩ := find_tangent_contour fuel cA1 cB1 a_down b_down hft1
  have h5 : cA2.contour = A := (set_rightmost_contour fuel a_down cA2 hcA2).trans
    (h3.trans h1)
  have h6 : cB2.contour = B := (set_leftmost_contour fuel b_down cB2 hcB2).trans
    (h4.trans h2)
  obtain ⟨h7, h8⟩ := find_tangent_contour fuel cB2 cA2 b_up a_up hft2
  have ha_up : a_up.contour = A := h8.trans h5
  have ha_down : a_down.contour = A := h3.trans h1
  have hb_up : b_up.contour = B := h7.trans h6
  have hb_down : b_down.contour = B := h4.trans h2
  obtain ⟨pre1, hout1, hpre1, hmem1⟩ :=
    add_contour_shape fuel A a_up a_down [] acc1 hadd1
  obtain ⟨pre2, hout2, hpre2, hmem2⟩ :=
    add_contour_shape fuel B b_down b_up acc1 acc2 hadd2
  cases hC
  constructor
  · rw [hout2, hout1]
    simp [hpre2]
  · intro x hx
    rw [hout2, hout1] at hx
    simp only [List.nil_append, List.mem_append] at hx
    rcases hx with hx | hx
    · left
      have := hmem1 (ha_up.trans ha_down.symm) (by rw [ha_down]; exact hA) x hx
      rwa [ha_down] at this
    · right
      have := hmem2 (hb_down.trans hb_up.symm) (by rw [hb_up]; exact hB) x hx
      rwa [hb_up] at this

lemma merge_shape (fuel : Nat) (A B C : contour_type)
    (h : merge fuel A B = some C) (hA : A.pts_ ≠ []) (hB : B.pts_ ≠ []) :
    C.pts_ ≠ [] ∧ ∀ x ∈ C.pts_, x ∈ A.pts_ ∨ x ∈ B.pts_ := by
  unfold merge at h
  by_cases hc : is_on_one_line_pair A B = true
  · rw [if_pos hc] at h
    exact build_oneline_shape fuel A B C h hA hB
  · rw [if_neg hc] at h
    exact merge_general_shape fuel A B C h hA hB

lemma merge_hull_impl_shape :
    ∀ fuel pts C, merge_hull_impl fuel pts = some C → pts ≠ [] →
      C.pts_ ≠ [] ∧ ∀ x ∈ C.pts_, x ∈ pts := by
  intro fuel
  induction fuel with
  | zero =>
    intro pts C h hne
    rw [merge_hull_impl.eq_def] at h
    dsimp only at h
    by_cases hlen : pts.length ≤ 2
    · rw [if_pos hlen] at h
      cases h
      exact ⟨hne, fun x hx => hx⟩
    · rw [if_neg hlen] at h
      cases h
  | succ fuel ih =>
    intro pts C h hne
    rw [merge_hull_impl.eq_def] at h
    dsimp only at h
    by_cases hlen : pts.length ≤ 2
    · rw [if_pos hlen] at h
      cases h
      exact ⟨hne, fun x hx => hx⟩
    · rw [if_neg hlen] at h
      simp only [Option.bind_eq_bind, Option.bind_eq_some] at h
      obtain ⟨L, hL, R, hR, hm⟩ := h
      have hlen3 : 3 ≤ pts.length := by omega
      have htake : pts.take (pts.length / 2) ≠ [] := by
        rw [← List.length_pos, List.length_take]
        omega
      have hdrop : pts.drop (pts.length / 2) ≠ [] := by
        rw [← List.length_pos, List.length_drop]
        omega
      obtain ⟨hLne, hLsub⟩ := ih (pts.take (pts.length / 2)) L hL htake
      obtain ⟨hRne, hRsub⟩ := ih (pts.drop (pts.length / 2)) R hR hdrop
      obtain ⟨hCne, hCsub⟩ := merge_shape fuel L R C hm hLne hRne
      refine ⟨hCne, fun x hx => ?_⟩
      rcases hCsub x hx with hx2 | hx2
      · exact List.take_subset _ _ (hLsub x hx2)
      · exact List.drop_subset _ _ (hRsub x hx2)

/-- C3: whenever merge_hull returns a contour, every vertex of that
contour is one of the input points — no new points are invented. -/
theorem C3_vertices_subset_of_input (fuel : Nat) (pts : List point_type)
    (C : contour_type) (h : merge_hull fuel pts = .ok (some C)) :
    ∀ x ∈ C.pts_, x ∈ pts := by
  unfold merge_hull at h
  by_cases hlen : pts.length < 2
  · rw [if_pos hlen] at h
    cases h
  · rw [if_neg hlen] at h
    have himpl : merge_hull_impl fuel (sort_points pts) = some C := by
      injection h
    have hne : sort_points pts ≠ [] := by
      rw [← List.length_pos, sort_points_length]
      omega
    intro x hx
    have := (merge_hull_impl_shape fuel (sort_points pts) C himpl hne).2 x hx
    exact (mem_sort_points x pts).mp this

/-- C3 witness: one vertex of the hull of the concrete input
(0,0),(2,0),(1,1), shown to be an input point by the subset theorem. -/
theorem C3_vertices_subset_witness :
    (⟨1, 1⟩ : point_type) ∈ [(⟨0, 0⟩ : point_type), ⟨2, 0⟩, ⟨1, 1⟩] :=
  C3_vertices_subset_of_input 100 [⟨0, 0⟩, ⟨2, 0⟩, ⟨1, 1⟩]
    ⟨[⟨0, 0⟩, ⟨2, 0⟩, ⟨1, 1⟩]⟩ (by decide) ⟨1, 1⟩ (by decide)

end MergeHull
